import Mathlib

/-!
# Verification of the consolidation engine in `utility.py`

Shallow embedding of the Looker migration accelerator's core logic
(`ViewConsolidator`, `CalculatedFieldConsolidator`, the report builder and
the name/datatype mapping helpers of `EnterpriseMigrationOrchestrator`),
together with proofs of the spec's testable properties.

Modelling conventions:
* Python dicts keyed by name (`view_registry`, `field_registry`, the result
  of `consolidate()`) preserve insertion order; they are embedded as
  association lists `List (String × _)`.
* `_hash_definition` computes an MD5 digest of the JSON encoding of
  `{table, sorted column names, sorted calculated-field names}`.  The digest
  is identified with its pre-image: a `Fingerprint` structure holding those
  key elements, with decidable equality.  This is faithful up to MD5
  collisions of distinct key-element tuples.
* Python `sorted` on strings is embedded as an insertion sort by the
  lexicographic order on `String` (same resulting list).
* Python `set` differences (`_compute_difference`) are rendered to lists in
  an order the language does not specify; they are embedded as a canonical
  representative (`dedup` then `filter`) and compared only up to set
  membership in the theorems that mention them.
* Strings are manipulated through their character lists; Python's
  Unicode-aware `\w` character class is modelled on its ASCII fragment
  (alphanumeric or underscore), `\s` as `Char.isWhitespace`, and
  `str.lower` as `Char.toLower` mapped over the characters.
-/

namespace Migration

/-- A column entry of a view definition: the dicts
`{'name': ..., 'datatype': ..., 'role': ...}` built by the parser wrapper. -/
structure Column where
  name : String
  datatype : String
  role : String
  deriving DecidableEq, Repr

/-- A calculated-field entry `{'name': ..., 'formula': ...}`. -/
structure CalcField where
  name : String
  formula : String
  deriving DecidableEq, Repr

/-- The `view_def` dict assembled in
`EnterpriseMigrationOrchestrator.analyze_all_workbooks` and consumed by the
consolidator. -/
structure ViewDefinition where
  name : String
  table : String
  database : String
  schema : String
  columns : List Column
  calculated_fields : List CalcField
  custom_sql : Option String
  deriving DecidableEq, Repr

/-- Lexicographic `≤` on character lists by code point — the order Python
uses to compare strings. -/
def lexLe : List Char → List Char → Bool
  | [], _ => true
  | _ :: _, [] => false
  | a :: as, b :: bs =>
    if a.toNat < b.toNat then true
    else if b.toNat < a.toNat then false
    else lexLe as bs

/-- Python's `≤` on strings (code-point lexicographic order). -/
def strLe (a b : String) : Bool :=
  lexLe a.data b.data

/-- Stable insertion step for an ascending insertion sort on strings. -/
def insertSorted (a : String) : List String → List String
  | [] => [a]
  | b :: t => if strLe a b then a :: b :: t else b :: insertSorted a t

/-- Python's `sorted` on a list of strings (ascending lexicographic order),
realised as an insertion sort. -/
def sortStrings (l : List String) : List String :=
  l.foldr insertSorted []

/-- The identity-relevant key elements hashed by
`ViewConsolidator._hash_definition`; the MD5 digest is identified with this
tuple (see the module docstring). -/
structure Fingerprint where
  table : String
  columns : List String
  calc_fields : List String
  deriving DecidableEq, Repr

/-- `ViewConsolidator._hash_definition`: digest over the table name and the
sorted column / calculated-field names. -/
def hashDefinition (definition : ViewDefinition) : Fingerprint :=
  { table := definition.table
    columns := sortStrings (definition.columns.map (·.name))
    calc_fields := sortStrings (definition.calculated_fields.map (·.name)) }

/-- One entry of `view_registry[view_name]`: the dict
`{'definition': ..., 'source': ..., 'hash': ...}` appended by
`register_view`. -/
structure Observation where
  definition : ViewDefinition
  source : String
  hash : Fingerprint
  deriving DecidableEq, Repr

/-- The `view_registry` mapping (insertion-ordered dict of lists). -/
abbrev Registry := List (String × List Observation)

/-- Append a value to the list held under `key`, creating the entry at the
end when `key` is absent (the `if name not in registry: registry[name] = []`
followed by `append` pattern, also `defaultdict(list)` access). -/
def appendEntry {β : Type} (reg : List (String × List β)) (key : String)
    (v : β) : List (String × List β) :=
  if reg.any (fun p => p.1 == key) then
    reg.map (fun p => if p.1 == key then (p.1, p.2 ++ [v]) else p)
  else
    reg ++ [(key, [v])]

/-- `ViewConsolidator.register_view`. -/
def registerView (reg : Registry) (view_name : String)
    (view_definition : ViewDefinition) (workbook_source : String) : Registry :=
  appendEntry reg view_name
    { definition := view_definition
      source := workbook_source
      hash := hashDefinition view_definition }

/-- The structural difference dict returned by
`ViewConsolidator._compute_difference`. -/
structure Difference where
  columns_only_in_def1 : List String
  columns_only_in_def2 : List String
  calc_fields_only_in_def1 : List String
  calc_fields_only_in_def2 : List String
  deriving DecidableEq, Repr

/-- One entry of a `UnifiedView.variations` list:
`{'source': ..., 'difference': ...}`. -/
structure Variation where
  source : String
  difference : Difference
  deriving DecidableEq, Repr

/-- The `UnifiedView` dataclass.  Field defaults follow the dataclass:
`source_workbooks = []`, `canonical_definition = None`, `variations = []`,
`merge_strategy = "most_complete"`. -/
structure UnifiedView where
  name : String
  source_workbooks : List String := []
  canonical_definition : Option ViewDefinition := none
  variations : List Variation := []
  merge_strategy : String := "most_complete"
  deriving DecidableEq, Repr

/-- Python's `list(set(l1) - set(l2))`, rendered canonically (the element
order of the Python list is unspecified; theorems compare these lists only
up to membership). -/
def setDiff (l1 l2 : List String) : List String :=
  l1.dedup.filter (fun c => c ∉ l2)

/-- `ViewConsolidator._compute_difference`. -/
def computeDifference (def1 def2 : ViewDefinition) : Difference :=
  let cols1 := def1.columns.map (·.name)
  let cols2 := def2.columns.map (·.name)
  let calcs1 := def1.calculated_fields.map (·.name)
  let calcs2 := def2.calculated_fields.map (·.name)
  { columns_only_in_def1 := setDiff cols1 cols2
    columns_only_in_def2 := setDiff cols2 cols1
    calc_fields_only_in_def1 := setDiff calcs1 calcs2
    calc_fields_only_in_def2 := setDiff calcs2 calcs1 }

/-- Python's `max(definitions, key=...)` over the non-empty list
`cur :: rest`: scan left to right, replacing the current maximum only on a
strictly larger key, so the first maximal element wins. -/
def pyMax {α : Type} (key : α → Nat) (cur : α) : List α → α
  | [] => cur
  | x :: xs => if key cur < key x then pyMax key x xs else pyMax key cur xs

/-- The completeness metric `len(columns) + len(calculated_fields)` used to
select the most complete observation. -/
def completeness (d : Observation) : Nat :=
  d.definition.columns.length + d.definition.calculated_fields.length

/-- `ViewConsolidator._consolidate_view_definitions`.  Only ever called with
two or more observations; on `[]` (where Python's `max` would raise
`ValueError`) an arbitrary placeholder result is returned. -/
def consolidateViewDefinitions (view_name : String)
    (definitions : List Observation) : UnifiedView :=
  if (definitions.map (·.hash)).dedup.length = 1 then
    { name := view_name
      source_workbooks := definitions.map (·.source)
      canonical_definition := definitions.head?.map (·.definition)
      variations := []
      merge_strategy := "identical" }
  else
    match definitions with
    | [] =>
      { name := view_name
        source_workbooks := []
        canonical_definition := none
        variations := []
        merge_strategy := "most_complete" }
    | d0 :: rest =>
      let most_complete := pyMax completeness d0 rest
      let variations := (d0 :: rest).filterMap (fun d =>
        if d.hash ≠ most_complete.hash then
          some { source := d.source
                 difference := computeDifference most_complete.definition
                   d.definition }
        else none)
      { name := view_name
        source_workbooks := (d0 :: rest).map (·.source)
        canonical_definition := some most_complete.definition
        variations := variations
        merge_strategy :=
          if variations.isEmpty then "most_complete" else "manual_review" }

/-- The body of the loop in `ViewConsolidator.consolidate` for one registry
entry: the single-observation case is handled inline, everything else is
delegated to `_consolidate_view_definitions`. -/
def consolidateEntry (view_name : String)
    (definitions : List Observation) : UnifiedView :=
  match definitions with
  | [d] =>
      { name := view_name
        source_workbooks := [d.source]
        canonical_definition := some d.definition
        variations := []
        merge_strategy := "most_complete" }
  | _ => consolidateViewDefinitions view_name definitions

/-- `ViewConsolidator.consolidate`: fold the registry (in insertion order)
into the `unified_views` mapping. -/
def consolidate (reg : Registry) : List (String × UnifiedView) :=
  reg.map (fun p => (p.1, consolidateEntry p.1 p.2))

/-! ## Calculated-field consolidator -/

/-- Python's `str.lower()` (ASCII fragment, see module docstring). -/
def pyLower (s : String) : String :=
  String.mk (s.data.map Char.toLower)

/-- Replace each maximal run of characters satisfying `p` with the single
replacement character `rep` (the effect of `re.sub(p+, rep, ...)`); the
`Bool` argument records whether the previous character was part of a run. -/
def collapseRuns (p : Char → Bool) (rep : Char) : Bool → List Char → List Char
  | _, [] => []
  | prev, c :: cs =>
    if p c then
      if prev then collapseRuns p rep true cs
      else rep :: collapseRuns p rep true cs
    else c :: collapseRuns p rep false cs

/-- Drop characters satisfying `p` from both ends of a character list
(Python's `str.strip` family). -/
def stripWhile (p : Char → Bool) (l : List Char) : List Char :=
  ((l.dropWhile p).reverse.dropWhile p).reverse

/-- `CalculatedFieldConsolidator.register_field`'s normalisation step:
`re.sub(r'\s+', ' ', formula.lower().strip())`. -/
def normalizeFormula (formula : String) : String :=
  String.mk (collapseRuns Char.isWhitespace ' ' false
    (stripWhile Char.isWhitespace (formula.data.map Char.toLower)))

/-- One entry of `field_registry[field_name]`:
`{'formula': ..., 'normalized': ..., 'source': ...}`. -/
structure FieldRecord where
  formula : String
  normalized : String
  source : String
  deriving DecidableEq, Repr

/-- The `field_registry` mapping (`defaultdict(list)`, insertion-ordered). -/
abbrev CalcFieldRegistry := List (String × List FieldRecord)

/-- `CalculatedFieldConsolidator.register_field`. -/
def registerField (reg : CalcFieldRegistry) (field_name : String)
    (formula : String) (workbook_source : String) : CalcFieldRegistry :=
  appendEntry reg field_name
    { formula := formula
      normalized := normalizeFormula formula
      source := workbook_source }

/-- The `{'formula': ..., 'sources': ...}` recommendation record expected by
the report builder under `data['recommendation']`. -/
structure DupRecommendation where
  formula : String
  sources : List String
  deriving DecidableEq, Repr

/-- The per-field value shape of the `duplicate_calcs` mapping consumed by
`_generate_consolidation_report` and `_generate_governance_review`. -/
structure DupFieldData where
  variations : List FieldRecord
  recommendation : DupRecommendation
  deriving DecidableEq, Repr

/-- `CalculatedFieldConsolidator.find_duplicates`: the duplicate-detection
pass is stubbed — `duplicates = {}` is returned untouched. -/
def findDuplicates (_reg : CalcFieldRegistry) : List (String × DupFieldData) :=
  []

/-! ## Report builder -/

/-- The subset of `DataSourceMock` state the report builder touches
(`len(p.data_sources)` per parser). -/
structure DataSourceMock where
  name : String
  table : String
  database : String
  schema : String
  columns : List Column
  calculated_fields : List CalcField
  custom_sql : Option String
  deriving DecidableEq, Repr

/-- The per-workbook parser state (`TableauParserWrapper`) as read by the
report builder. -/
structure ParserState where
  data_sources : List DataSourceMock
  deriving DecidableEq, Repr

/-- The `report['summary']` dict.  `views_eliminated` is a Python `int`
subtraction, so it is an `Int` here. -/
structure ReportSummary where
  workbooks_analyzed : Nat
  views_before_consolidation : Nat
  views_after_consolidation : Nat
  views_eliminated : Int
  views_requiring_manual_review : Nat
  duplicate_calculated_fields : Nat
  deriving DecidableEq, Repr

/-- One value of the `report['unified_views']` mapping. -/
structure UnifiedViewReportEntry where
  sources : List String
  merge_strategy : String
  variations : Nat
  deriving DecidableEq, Repr

/-- One element of `report['views_requiring_review']`. -/
structure ReviewEntry where
  name : String
  sources : List String
  variations : List Variation
  deriving DecidableEq, Repr

/-- One value of the `report['duplicate_calculated_fields']` mapping. -/
structure DupFieldReportEntry where
  variation_count : Nat
  recommended_formula : String
  sources : List String
  deriving DecidableEq, Repr

/-- The consolidation report dict. -/
structure ConsolidationReport where
  summary : ReportSummary
  unified_views : List (String × UnifiedViewReportEntry)
  views_requiring_review : List ReviewEntry
  duplicate_calculated_fields : List (String × DupFieldReportEntry)
  deriving DecidableEq, Repr

/-- `EnterpriseMigrationOrchestrator._generate_consolidation_report`, made
explicit in the pieces of `self` state it reads: `workbook_paths`,
`parsers`, `unified_views` and `duplicate_calcs`. -/
def generateConsolidationReport (workbook_paths : List String)
    (parsers : List ParserState)
    (unified_views : List (String × UnifiedView))
    (duplicate_calcs : List (String × DupFieldData)) : ConsolidationReport :=
  let total_views_before := (parsers.map (fun p => p.data_sources.length)).sum
  let total_views_after := unified_views.length
  let views_requiring_review := (unified_views.map (·.2)).filter
    (fun v => v.merge_strategy == "manual_review")
  { summary :=
      { workbooks_analyzed := workbook_paths.length
        views_before_consolidation := total_views_before
        views_after_consolidation := total_views_after
        views_eliminated := (total_views_before : Int) - (total_views_after : Int)
        views_requiring_manual_review := views_requiring_review.length
        duplicate_calculated_fields := duplicate_calcs.length }
    unified_views := unified_views.map (fun p =>
      (p.1,
        { sources := p.2.source_workbooks
          merge_strategy := p.2.merge_strategy
          variations := p.2.variations.length }))
    views_requiring_review := views_requiring_review.map (fun v =>
      { name := v.name
        sources := v.source_workbooks
        variations := v.variations })
    duplicate_calculated_fields := duplicate_calcs.map (fun p =>
      (p.1,
        { variation_count := p.2.variations.length
          recommended_formula :=
            String.mk (p.2.recommendation.formula.data.take 100) ++ "..."
          sources := p.2.recommendation.sources })) }

/-! ## Name sanitisation and datatype mapping -/

/-- Python's `\w` character class on its ASCII fragment: alphanumeric or
underscore. -/
def isWordChar (c : Char) : Bool :=
  c.isAlphanum || c = '_'

/-- `EnterpriseMigrationOrchestrator._sanitize_name`, character-list level:
`re.sub(r'[^\w\s]', '', name)`, then `.lower()`, then `.replace(' ', '_')`,
then `re.sub(r'_+', '_', ...)`, then `.strip('_')`. -/
def sanitizeChars (l : List Char) : List Char :=
  let step1 := l.filter (fun c => isWordChar c || c.isWhitespace)
  let step2 := step1.map Char.toLower
  let step3 := step2.map (fun c => if c = ' ' then '_' else c)
  let step4 := collapseRuns (fun c => c = '_') '_' false step3
  stripWhile (fun c => c = '_') step4

/-- `EnterpriseMigrationOrchestrator._sanitize_name`. -/
def sanitizeName (name : String) : String :=
  String.mk (sanitizeChars name.data)

/-- Modelled from the spec's words (§4.5): the sanitisation pipeline as the
specification states it — "non-word characters stripped, whitespace folded
to underscores, lowercased, duplicate underscores collapsed".  Characters
that are neither word characters nor whitespace are stripped (stripping
whitespace as well would leave the folding step nothing to act on), every
whitespace character is folded to an underscore, the result is lowercased
and runs of underscores are collapsed.  Used only to compare the spec's
description against `sanitizeName`. -/
def sanitizeSpecChars (l : List Char) : List Char :=
  let step1 := l.filter (fun c => isWordChar c || c.isWhitespace)
  let step2 := step1.map (fun c => if c.isWhitespace then '_' else c)
  let step3 := step2.map Char.toLower
  collapseRuns (fun c => c = '_') '_' false step3

/-- The spec's sanitisation pipeline on strings. -/
def sanitizeSpecName (name : String) : String :=
  String.mk (sanitizeSpecChars name.data)

/-- The amended sanitisation pipeline: as the spec states it, but folding
only spaces (not all whitespace) to underscores and stripping leading and
trailing underscores at the end, which is what the code does. -/
def sanitizeAmendedChars (l : List Char) : List Char :=
  let step1 := l.filter (fun c => isWordChar c || c.isWhitespace)
  let step2 := step1.map (fun c => if c = ' ' then '_' else c)
  let step3 := step2.map Char.toLower
  stripWhile (fun c => c = '_') (collapseRuns (fun c => c = '_') '_' false step3)

/-- The fixed datatype table of
`EnterpriseMigrationOrchestrator._map_datatype`. -/
def datatypeMapping : List (String × String) :=
  [("string", "string"), ("integer", "number"), ("real", "number"),
   ("boolean", "yesno"), ("date", "date"), ("datetime", "time")]

/-- `EnterpriseMigrationOrchestrator._map_datatype`:
`mapping.get(tableau_type.lower(), 'string')`. -/
def mapDatatype (tableau_type : String) : String :=
  (datatypeMapping.lookup (pyLower tableau_type)).getD "string"

/-! ## Helper lemmas -/

/-- The key of the seed never exceeds the key of the running maximum. -/
theorem le_key_pyMax {α : Type} (key : α → Nat) :
    ∀ (l : List α) (a : α), key a ≤ key (pyMax key a l) := by
  intro l
  induction l with
  | nil => intro a; exact Nat.le_refl _
  | cons x xs ih =>
    intro a
    simp only [pyMax]
    by_cases h : key a < key x
    · rw [if_pos h]
      exact Nat.le_trans (Nat.le_of_lt h) (ih x)
    · rw [if_neg h]
      exact ih a

/-- `pyMax` returns the first element attaining the maximal key: the input
splits around the result, every earlier element has a strictly smaller key
and every later element a key no larger. -/
theorem pyMax_spec {α : Type} (key : α → Nat) :
    ∀ (l : List α) (a : α), ∃ l₁ l₂,
      a :: l = l₁ ++ pyMax key a l :: l₂ ∧
      (∀ x ∈ l₁, key x < key (pyMax key a l)) ∧
      (∀ x ∈ l₂, key x ≤ key (pyMax key a l)) := by
  intro l
  induction l with
  | nil =>
    intro a
    exact ⟨[], [], rfl, by simp, by simp⟩
  | cons x xs ih =>
    intro a
    by_cases h : key a < key x
    · obtain ⟨l₁, l₂, heq, h₁, h₂⟩ := ih x
      have hres : pyMax key a (x :: xs) = pyMax key x xs := by
        simp only [pyMax]; rw [if_pos h]
      rw [hres]
      refine ⟨a :: l₁, l₂, ?_, ?_, h₂⟩
      · simpa using heq
      · intro y hy
        rcases List.mem_cons.1 hy with rfl | hy'
        · exact Nat.lt_of_lt_of_le h (le_key_pyMax key xs x)
        · exact h₁ y hy'
    · obtain ⟨l₁, l₂, heq, h₁, h₂⟩ := ih a
      have hres : pyMax key a (x :: xs) = pyMax key a xs := by
        simp only [pyMax]; rw [if_neg h]
      rw [hres]
      cases l₁ with
      | nil =>
        simp only [List.nil_append, List.cons.injEq] at heq
        obtain ⟨ha, hl₂⟩ := heq
        refine ⟨[], x :: xs, ?_, by simp, ?_⟩
        · rw [← ha]
          rfl
        · intro y hy
          rcases List.mem_cons.1 hy with rfl | hy'
          · exact Nat.le_trans (Nat.le_of_not_lt h) (le_key_pyMax key xs a)
          · exact h₂ y (hl₂ ▸ hy')
      | cons b l₁' =>
        simp only [List.cons_append, List.cons.injEq] at heq
        obtain ⟨hb, hxs⟩ := heq
        subst hb
        have hka : key a < key (pyMax key a xs) := h₁ a (by simp)
        refine ⟨a :: x :: l₁', l₂, ?_, ?_, h₂⟩
        · conv_lhs => rw [hxs]
          rfl
        · intro y hy
          rcases List.mem_cons.1 hy with rfl | hy'
          · exact hka
          · rcases List.mem_cons.1 hy' with rfl | hy''
            · exact Nat.lt_of_le_of_lt (Nat.le_of_not_lt h) hka
            · exact h₁ y (by simp [hy''])

/-- A list whose elements all equal its head dedups to that head alone. -/
theorem dedup_cons_eq_single {α : Type} [DecidableEq α] (a : α) :
    ∀ l : List α, (∀ x ∈ l, x = a) → (a :: l).dedup = [a] := by
  intro l
  induction l with
  | nil => intro _; simp
  | cons b t ih =>
    intro h
    have hb : b = a := h b (by simp)
    subst hb
    have ht : ∀ x ∈ t, x = b := fun x hx => h x (by simp [hx])
    rw [List.dedup_cons_of_mem (by simp : b ∈ b :: t)]
    exact ih ht

/-- A list with exactly one distinct element has pairwise equal elements. -/
theorem all_eq_of_dedup_length_one {α : Type} [DecidableEq α] {l : List α}
    (h : l.dedup.length = 1) : ∀ a ∈ l, ∀ b ∈ l, a = b := by
  obtain ⟨x, hx⟩ := List.length_eq_one.1 h
  intro a ha b hb
  have ha' : a ∈ l.dedup := List.mem_dedup.2 ha
  have hb' : b ∈ l.dedup := List.mem_dedup.2 hb
  rw [hx, List.mem_singleton] at ha' hb'
  rw [ha', hb']

/-- Every registry entry appears (under its own name) in the result of
`consolidate`. -/
theorem mem_consolidate {reg : Registry} {n : String}
    {defs : List Observation} (h : (n, defs) ∈ reg) :
    (n, consolidateEntry n defs) ∈ consolidate reg := by
  have hm := List.mem_map_of_mem
    (fun p : String × List Observation => (p.1, consolidateEntry p.1 p.2)) h
  exact hm

/-- With at least two observations, `consolidateEntry` delegates to
`_consolidate_view_definitions`. -/
theorem consolidateEntry_cons_cons (n : String) (a b : Observation)
    (t : List Observation) :
    consolidateEntry n (a :: b :: t) =
      consolidateViewDefinitions n (a :: b :: t) := rfl

/-- In the differing-fingerprints branch, the canonical definition comes
from the `max`-selected observation. -/
theorem canonical_of_ne (n : String) (d0 : Observation)
    (rest : List Observation)
    (hne : ((d0 :: rest).map (·.hash)).dedup.length ≠ 1) :
    (consolidateViewDefinitions n (d0 :: rest)).canonical_definition =
      some (pyMax completeness d0 rest).definition := by
  simp only [consolidateViewDefinitions]
  rw [if_neg hne]

/-- In the differing-fingerprints branch, `variations` collects every
observation whose fingerprint differs from the canonical one. -/
theorem variations_of_ne (n : String) (d0 : Observation)
    (rest : List Observation)
    (hne : ((d0 :: rest).map (·.hash)).dedup.length ≠ 1) :
    (consolidateViewDefinitions n (d0 :: rest)).variations =
      (d0 :: rest).filterMap (fun d =>
        if d.hash ≠ (pyMax completeness d0 rest).hash then
          some (⟨d.source, computeDifference
            (pyMax completeness d0 rest).definition d.definition⟩ : Variation)
        else none) := by
  simp only [consolidateViewDefinitions]
  rw [if_neg hne]

/-- In the differing-fingerprints branch, the strategy is decided by the
emptiness of the `variations` list. -/
theorem merge_strategy_of_ne (n : String) (d0 : Observation)
    (rest : List Observation)
    (hne : ((d0 :: rest).map (·.hash)).dedup.length ≠ 1) :
    (consolidateViewDefinitions n (d0 :: rest)).merge_strategy =
      if (consolidateViewDefinitions n (d0 :: rest)).variations.isEmpty
      then "most_complete" else "manual_review" := by
  simp only [consolidateViewDefinitions]
  rw [if_neg hne]

/-! ## Claim theorems -/

/-- C1: for every name registered with two or more observations carrying at
least two distinct fingerprints, `consolidate()` selects as
`canonical_definition` the record of the observation maximising
`len(columns) + len(calculated_fields)`; on ties the observation registered
first (earliest in the per-name sequence) wins.  The conclusion exhibits
the split of the observation list around the chosen observation: everything
registered earlier is strictly less complete, everything later is no more
complete. -/
theorem canonical_is_first_most_complete
    (reg : Registry) (n : String) (defs : List Observation)
    (hmem : (n, defs) ∈ reg) (hlen : 2 ≤ defs.length)
    (hdiff : ∃ a ∈ defs, ∃ b ∈ defs, a.hash ≠ b.hash) :
    ∃ uv l₁ mc l₂, (n, uv) ∈ consolidate reg ∧
      defs = l₁ ++ mc :: l₂ ∧
      uv.canonical_definition = some mc.definition ∧
      (∀ d ∈ l₁, completeness d < completeness mc) ∧
      (∀ d ∈ l₂, completeness d ≤ completeness mc) := by
  rcases defs with _ | ⟨a, _ | ⟨b, t⟩⟩
  · simp at hlen
  · simp at hlen
  · have hne : ((a :: b :: t).map (·.hash)).dedup.length ≠ 1 := by
      intro h1
      obtain ⟨x, hx, y, hy, hxy⟩ := hdiff
      exact hxy (all_eq_of_dedup_length_one h1 x.hash
        (List.mem_map_of_mem _ hx) y.hash (List.mem_map_of_mem _ hy))
    obtain ⟨l₁, l₂, hsplit, h₁, h₂⟩ := pyMax_spec completeness (b :: t) a
    refine ⟨consolidateEntry n (a :: b :: t), l₁,
      pyMax completeness a (b :: t), l₂,
      mem_consolidate hmem, hsplit, ?_, h₁, h₂⟩
    rw [consolidateEntry_cons_cons]
    exact canonical_of_ne n a (b :: t) hne

/-- C2: for every name registered with two or more observations whose
fingerprints are pairwise equal, `consolidate()` yields a `UnifiedView`
with `merge_strategy = "identical"`, canonical definition equal to the
first observation's record, and empty `variations`. -/
theorem identical_strategy_of_equal_fingerprints
    (reg : Registry) (n : String) (defs : List Observation) (d : Observation)
    (hmem : (n, defs) ∈ reg) (hhead : defs.head? = some d)
    (hlen : 2 ≤ defs.length)
    (heq : ∀ a ∈ defs, ∀ b ∈ defs, a.hash = b.hash) :
    ∃ uv, (n, uv) ∈ consolidate reg ∧
      uv.merge_strategy = "identical" ∧
      uv.canonical_definition = some d.definition ∧
      uv.variations = [] := by
  refine ⟨consolidateEntry n defs, mem_consolidate hmem, ?_⟩
  rcases defs with _ | ⟨a, _ | ⟨b, t⟩⟩
  · simp at hlen
  · simp at hlen
  · have hd : a = d := by
      simp only [List.head?_cons, Option.some.injEq] at hhead
      exact hhead
    subst hd
    rw [consolidateEntry_cons_cons]
    have hall : ∀ x ∈ (b :: t).map (·.hash), x = a.hash := by
      intro x hx
      rcases List.mem_map.1 hx with ⟨o, ho, rfl⟩
      exact heq o (List.mem_cons_of_mem a ho) a (by simp)
    have hded : ((a :: b :: t).map (·.hash)).dedup.length = 1 := by
      have hmapeq : (a :: b :: t).map (·.hash) =
          a.hash :: (b :: t).map (·.hash) := rfl
      rw [hmapeq, dedup_cons_eq_single a.hash _ hall]
      rfl
    simp only [consolidateViewDefinitions]
    rw [if_pos hded]
    exact ⟨rfl, rfl, rfl⟩

/-- C3: when a name carries at least two distinct fingerprints, the
computed `variations` list is non-empty and the strategy is
`"manual_review"`; the `"most_complete"` terminal state of that branch is
never produced. -/
theorem manual_review_of_distinct_fingerprints
    (reg : Registry) (n : String) (defs : List Observation)
    (hmem : (n, defs) ∈ reg)
    (hdiff : ∃ a ∈ defs, ∃ b ∈ defs, a.hash ≠ b.hash) :
    ∃ uv, (n, uv) ∈ consolidate reg ∧
      uv.variations ≠ [] ∧
      uv.merge_strategy = "manual_review" ∧
      uv.merge_strategy ≠ "most_complete" := by
  obtain ⟨x, hx, y, hy, hxy⟩ := hdiff
  rcases defs with _ | ⟨a, _ | ⟨b, t⟩⟩
  · simp at hx
  · simp only [List.mem_singleton] at hx hy
    subst hx
    subst hy
    exact absurd rfl hxy
  · have hne : ((a :: b :: t).map (·.hash)).dedup.length ≠ 1 := by
      intro h1
      exact hxy (all_eq_of_dedup_length_one h1 x.hash
        (List.mem_map_of_mem _ hx) y.hash (List.mem_map_of_mem _ hy))
    refine ⟨consolidateEntry n (a :: b :: t), mem_consolidate hmem, ?_⟩
    rw [consolidateEntry_cons_cons]
    have hd : ∃ d ∈ a :: b :: t,
        d.hash ≠ (pyMax completeness a (b :: t)).hash := by
      by_cases hxmc : x.hash = (pyMax completeness a (b :: t)).hash
      · refine ⟨y, hy, fun hymc => hxy (hxmc.trans hymc.symm)⟩
      · exact ⟨x, hx, hxmc⟩
    obtain ⟨d, hdmem, hdne⟩ := hd
    have hvarne : (consolidateViewDefinitions n (a :: b :: t)).variations ≠ [] := by
      rw [variations_of_ne n a (b :: t) hne]
      intro hnil
      have hnone := List.filterMap_eq_nil_iff.1 hnil d hdmem
      rw [if_pos hdne] at hnone
      exact Option.noConfusion hnone
    have hstrat : (consolidateViewDefinitions n (a :: b :: t)).merge_strategy =
        "manual_review" := by
      rw [merge_strategy_of_ne n a (b :: t) hne, if_neg]
      intro hemp
      exact hvarne (List.isEmpty_iff.1 hemp)
    exact ⟨hvarne, hstrat, by rw [hstrat]; decide⟩

/-- C4: `consolidate()` is a pure, deterministic function of the registry:
on equal registries it produces mappings with the same keys in the same
order and field-wise equal `UnifiedView` values. -/
theorem consolidate_deterministic (r₁ r₂ : Registry) (h : r₁ = r₂) :
    (consolidate r₁).map Prod.fst = (consolidate r₂).map Prod.fst ∧
    List.Forall₂
      (fun a b : String × UnifiedView =>
        a.1 = b.1 ∧ a.2.name = b.2.name ∧
        a.2.source_workbooks = b.2.source_workbooks ∧
        a.2.canonical_definition = b.2.canonical_definition ∧
        a.2.variations = b.2.variations ∧
        a.2.merge_strategy = b.2.merge_strategy)
      (consolidate r₁) (consolidate r₂) := by
  subst h
  refine ⟨rfl, ?_⟩
  rw [List.forall₂_same]
  intro x _
  exact ⟨rfl, rfl, rfl, rfl, rfl, rfl⟩

/-- C5: a name with exactly one registered observation consolidates to a
`UnifiedView` with no variations, that observation's record as canonical
definition, and the one-element source list. -/
theorem single_observation_identity
    (reg : Registry) (n : String) (d : Observation)
    (hmem : (n, [d]) ∈ reg) :
    ∃ uv, (n, uv) ∈ consolidate reg ∧
      uv.variations = [] ∧
      uv.canonical_definition = some d.definition ∧
      uv.source_workbooks = [d.source] :=
  ⟨consolidateEntry n [d], mem_consolidate hmem, rfl, rfl, rfl⟩

/-- C6: the structural difference computation is symmetric under argument
swap — the columns only in the second argument of `diff(A, B)` are, as a
set, the columns only in the first argument of `diff(B, A)` (the canonical
record is passed first at the call site), and likewise for
calculated-field names. -/
theorem difference_symmetry (A B : ViewDefinition) :
    (∀ x, x ∈ (computeDifference A B).columns_only_in_def2 ↔
          x ∈ (computeDifference B A).columns_only_in_def1) ∧
    (∀ x, x ∈ (computeDifference A B).calc_fields_only_in_def2 ↔
          x ∈ (computeDifference B A).calc_fields_only_in_def1) :=
  ⟨fun _ => Iff.rfl, fun _ => Iff.rfl⟩

/-! ## Concrete records used by the witnesses -/

/-- A two-column `"Sales"` record as extracted from workbook `W1`. -/
def salesDefW1 : ViewDefinition :=
  { name := "Sales", table := "orders", database := "bigquery-public-data"
    schema := "google_trends"
    columns := [⟨"OrderID", "integer", "dimension"⟩,
                ⟨"Amount", "real", "measure"⟩]
    calculated_fields := []
    custom_sql := none }

/-- The `"Sales"` record from workbook `W2`, with one extra column. -/
def salesDefW2 : ViewDefinition :=
  { salesDefW1 with
    columns := salesDefW1.columns ++ [⟨"Region", "string", "dimension"⟩] }

/-- The `W1` observation of `"Sales"`. -/
def salesObsW1 : Observation :=
  { definition := salesDefW1, source := "W1.twb"
    hash := hashDefinition salesDefW1 }

/-- The `W2` observation of `"Sales"`. -/
def salesObsW2 : Observation :=
  { definition := salesDefW2, source := "W2.twb"
    hash := hashDefinition salesDefW2 }

/-- An observation of the unchanged `"Customers"` record from `W1`. -/
def custObsW1 : Observation :=
  { definition := { salesDefW1 with name := "Customers" }
    source := "W1.twb"
    hash := hashDefinition { salesDefW1 with name := "Customers" } }

/-- The structurally identical `"Customers"` observation from `W2`. -/
def custObsW2 : Observation :=
  { custObsW1 with source := "W2.twb" }

/-! ## Claim witnesses for the consolidator theorems -/

/-- Witness for C1 on a concrete two-workbook registry. -/
theorem canonical_is_first_most_complete_witness :
    ∃ uv l₁ mc l₂,
      ("Sales", uv) ∈ consolidate [("Sales", [salesObsW1, salesObsW2])] ∧
      [salesObsW1, salesObsW2] = l₁ ++ mc :: l₂ ∧
      uv.canonical_definition = some mc.definition ∧
      (∀ d ∈ l₁, completeness d < completeness mc) ∧
      (∀ d ∈ l₂, completeness d ≤ completeness mc) :=
  canonical_is_first_most_complete [("Sales", [salesObsW1, salesObsW2])]
    "Sales" [salesObsW1, salesObsW2] (by simp) (by decide)
    ⟨salesObsW1, by simp, salesObsW2, by simp, by decide⟩

/-- Witness for C2 on a concrete registry with two identical observations. -/
theorem identical_strategy_of_equal_fingerprints_witness :
    ∃ uv,
      ("Customers", uv) ∈ consolidate [("Customers", [custObsW1, custObsW2])] ∧
      uv.merge_strategy = "identical" ∧
      uv.canonical_definition = some custObsW1.definition ∧
      uv.variations = [] :=
  identical_strategy_of_equal_fingerprints
    [("Customers", [custObsW1, custObsW2])] "Customers"
    [custObsW1, custObsW2] custObsW1 (by simp) rfl (by decide) (by decide)

/-- Witness for C3 on a concrete registry with two differing observations. -/
theorem manual_review_of_distinct_fingerprints_witness :
    ∃ uv,
      ("Sales", uv) ∈ consolidate [("Sales", [salesObsW1, salesObsW2])] ∧
      uv.variations ≠ [] ∧
      uv.merge_strategy = "manual_review" ∧
      uv.merge_strategy ≠ "most_complete" :=
  manual_review_of_distinct_fingerprints
    [("Sales", [salesObsW1, salesObsW2])] "Sales" [salesObsW1, salesObsW2]
    (by simp) ⟨salesObsW1, by simp, salesObsW2, by simp, by decide⟩

/-- Witness for C4 on a concrete registry. -/
theorem consolidate_deterministic_witness :
    (consolidate [("Sales", [salesObsW1, salesObsW2])]).map Prod.fst =
      (consolidate [("Sales", [salesObsW1, salesObsW2])]).map Prod.fst ∧
    List.Forall₂
      (fun a b : String × UnifiedView =>
        a.1 = b.1 ∧ a.2.name = b.2.name ∧
        a.2.source_workbooks = b.2.source_workbooks ∧
        a.2.canonical_definition = b.2.canonical_definition ∧
        a.2.variations = b.2.variations ∧
        a.2.merge_strategy = b.2.merge_strategy)
      (consolidate [("Sales", [salesObsW1, salesObsW2])])
      (consolidate [("Sales", [salesObsW1, salesObsW2])]) :=
  consolidate_deterministic [("Sales", [salesObsW1, salesObsW2])]
    [("Sales", [salesObsW1, salesObsW2])] rfl

/-- Witness for C5 on a concrete one-observation registry. -/
theorem single_observation_identity_witness :
    ∃ uv, ("Sales", uv) ∈ consolidate [("Sales", [salesObsW1])] ∧
      uv.variations = [] ∧
      uv.canonical_definition = some salesObsW1.definition ∧
      uv.source_workbooks = [salesObsW1.source] :=
  single_observation_identity [("Sales", [salesObsW1])] "Sales" salesObsW1
    (by simp)

/-! ## C7: what the consolidation report depends on -/

/-- C7 counterexample: the report is *not* a function of the unified-view
and duplicate-field mappings alone — with both mappings empty and no
parsers, changing only `workbook_paths` changes the report (its
`workbooks_analyzed` summary count). -/
theorem report_not_function_of_mappings_only :
    generateConsolidationReport [] [] [] [] ≠
      generateConsolidationReport ["W1.twb"] [] [] [] := by
  decide

/-- C7 amended: the report is a function of the unified-view mapping, the
duplicate-field mapping, the number of workbook paths, and the total
data-source count across parsers; two runs agreeing on those produce
identical reports. -/
theorem report_function_of_mappings_and_counts
    (wp₁ wp₂ : List String) (ps₁ ps₂ : List ParserState)
    (uv : List (String × UnifiedView)) (dc : List (String × DupFieldData))
    (hwp : wp₁.length = wp₂.length)
    (hps : (ps₁.map (fun p => p.data_sources.length)).sum =
           (ps₂.map (fun p => p.data_sources.length)).sum) :
    generateConsolidationReport wp₁ ps₁ uv dc =
      generateConsolidationReport wp₂ ps₂ uv dc := by
  simp only [generateConsolidationReport, hwp, hps]

/-- A concrete data source used in the C7 witness. -/
def trendsDataSource : DataSourceMock :=
  { name := "Top Rising Terms"
    table := "top_rising_terms"
    database := "bigquery-public-data"
    schema := "google_trends"
    columns := [⟨"term", "string", "dimension"⟩]
    calculated_fields := []
    custom_sql := none }

/-- Witness for the amended C7: different paths and parser partitions with
equal counts yield the same report. -/
theorem report_function_of_mappings_and_counts_witness :
    generateConsolidationReport ["W1.twb"] [⟨[trendsDataSource]⟩, ⟨[]⟩] [] [] =
      generateConsolidationReport ["W2.twb"] [⟨[trendsDataSource]⟩] [] [] :=
  report_function_of_mappings_and_counts ["W1.twb"] ["W2.twb"]
    [⟨[trendsDataSource]⟩, ⟨[]⟩] [⟨[trendsDataSource]⟩] [] []
    (by decide) (by decide)

/-! ## C8: name sanitisation -/

/-- C8 counterexample: the emitted name is not the spec's pipeline
("whitespace folded to underscores", no trailing strip) — on the name
`"_a\tb_"` the code yields `"a\tb"` (tabs survive, boundary underscores are
stripped) while the spec's pipeline yields `"_a_b_"`. -/
theorem sanitize_spec_pipeline_counterexample :
    sanitizeName "_a\tb_" ≠ sanitizeSpecName "_a\tb_" := by
  decide

/-- `Char.toLower` maps no character other than the space to the space. -/
theorem eq_space_of_toLower_eq_space {c : Char}
    (h : Char.toLower c = ' ') : c = ' ' := by
  unfold Char.toLower at h
  by_cases hrange : c.toNat ≥ 65 ∧ c.toNat ≤ 90
  · rw [if_pos hrange] at h
    exfalso
    have hv : (c.toNat + 32).isValidChar := Or.inl (by omega)
    have h32 := congrArg Char.toNat h
    rw [Char.ofNat, dif_pos hv] at h32
    have h32' : c.toNat + 32 = 32 := h32
    omega
  · rw [if_neg hrange] at h
    exact h

/-- Lowercasing commutes with the space-to-underscore replacement. -/
theorem replaceSpace_toLower_comm (c : Char) :
    (if Char.toLower c = ' ' then '_' else Char.toLower c) =
      Char.toLower (if c = ' ' then '_' else c) := by
  by_cases hc : c = ' '
  · subst hc
    rfl
  · rw [if_neg hc, if_neg (fun h => hc (eq_space_of_toLower_eq_space h))]

/-- The code's sanitisation equals the amended pipeline (spec's operation
order, but folding only spaces and stripping boundary underscores). -/
theorem sanitizeChars_eq_amended (l : List Char) :
    sanitizeChars l = sanitizeAmendedChars l := by
  simp only [sanitizeChars, sanitizeAmendedChars, List.map_map]
  have hfun : ((fun c => if c = ' ' then '_' else c) ∘ Char.toLower) =
      (Char.toLower ∘ fun c => if c = ' ' then '_' else c) :=
    funext (fun c => replaceSpace_toLower_comm c)
  rw [hfun]

/-- C8 amended: for every view name the emitted artifact name is obtained
by stripping characters that are neither word characters nor whitespace,
folding spaces (only) to underscores, lowercasing, collapsing runs of
underscores, and stripping leading/trailing underscores; in particular
sanitising `"Top Rising Terms!"` yields `"top_rising_terms"`. -/
theorem sanitize_amended_pipeline :
    (∀ name : String,
      sanitizeName name = String.mk (sanitizeAmendedChars name.data)) ∧
    sanitizeName "Top Rising Terms!" = "top_rising_terms" :=
  ⟨fun name => congrArg String.mk (sanitizeChars_eq_amended name.data),
   by decide⟩

/-! ## C9: datatype mapping -/

/-- C9: the emitted type follows the fixed table (`boolean` maps to the
boolean-flag type, spelled `yesno` in the output syntax, and `datetime` to
the timestamp type, spelled `time`), and every datatype outside the table —
such as `"geography"` — maps to the default `"string"`. -/
theorem mapDatatype_fixed_table :
    mapDatatype "string" = "string" ∧
    mapDatatype "integer" = "number" ∧
    mapDatatype "real" = "number" ∧
    mapDatatype "boolean" = "yesno" ∧
    mapDatatype "date" = "date" ∧
    mapDatatype "datetime" = "time" ∧
    mapDatatype "geography" = "string" ∧
    ∀ t : String,
      pyLower t ∉ ["string", "integer", "real", "boolean", "date", "datetime"] →
      mapDatatype t = "string" := by
  refine ⟨rfl, rfl, rfl, rfl, rfl, rfl, rfl, ?_⟩
  intro t ht
  simp only [List.mem_cons, List.not_mem_nil, or_false, not_or] at ht
  obtain ⟨h1, h2, h3, h4, h5, h6⟩ := ht
  simp [mapDatatype, datatypeMapping, List.lookup,
    beq_eq_false_iff_ne.2 h1, beq_eq_false_iff_ne.2 h2,
    beq_eq_false_iff_ne.2 h3, beq_eq_false_iff_ne.2 h4,
    beq_eq_false_iff_ne.2 h5, beq_eq_false_iff_ne.2 h6]

/-- Witness for C9's universally quantified default clause at the concrete
unmapped datatype `"geography"`. -/
theorem mapDatatype_fixed_table_witness :
    pyLower "geography" ∉
      ["string", "integer", "real", "boolean", "date", "datetime"] ∧
    mapDatatype "geography" = "string" :=
  ⟨by decide,
   mapDatatype_fixed_table.2.2.2.2.2.2.2 "geography" (by decide)⟩

/-! ## C10: the duplicate-field detector stub -/

/-- C10: after any sequence of `register_field` calls, `find_duplicates()`
returns the empty mapping — the recommendation step is stubbed. -/
theorem find_duplicates_always_empty
    (calls : List (String × String × String)) :
    findDuplicates
      (calls.foldl (fun r c => registerField r c.1 c.2.1 c.2.2) []) = [] :=
  rfl

end Migration
